import Mathlib

/-!
Verification development for the baton client library (baton.c): query
construction, chunked query execution, result-row serialization, and
metadata mutation mapping against the iRODS catalog protocol.

Machine strings are modelled as Lean `String` or `List Char`; the remote
service is modelled by a script (a finite list) of responses, one consumed
per `rcGenQuery` call.
-/

namespace Baton

/-- The null character that terminates C strings inside the fixed-stride
result buffers of a query page. -/
def nulChar : Char := Char.ofNat 0

/-- The single-quote character that the clause compiler wraps values in. -/
def squote : Char := Char.ofNat 39

/-- One-character string holding the single-quote character. -/
def squoteS : String := String.mk [squote]

/-! ## POSIX dirname and basename (libgen.h)

baton.c calls the external libc functions `dirname(3)` and `basename(3)`
on copies of the path.  They are modelled here following the POSIX
algorithm: discard trailing slashes, then split at the final slash. -/

/-- Remove trailing slash characters. -/
def stripTrailing (l : List Char) : List Char :=
  (l.reverse.dropWhile (fun c => c = '/')).reverse

/-- The maximal suffix containing no slash. -/
def lastComponent (l : List Char) : List Char :=
  (l.reverse.takeWhile (fun c => c ≠ '/')).reverse

/-- Everything up to and including the final slash. -/
def dropLastComponent (l : List Char) : List Char :=
  (l.reverse.dropWhile (fun c => c ≠ '/')).reverse

/-- POSIX `basename(3)`: trailing slashes are discarded, then the part after
the last remaining slash is returned; an empty path gives "." and an
all-slash path gives "/". -/
def posixBasename (l : List Char) : List Char :=
  if l = [] then ['.']
  else
    let t := stripTrailing l
    if t = [] then ['/'] else lastComponent t

/-- POSIX `dirname(3)`: trailing slashes are discarded, the last component is
removed, and trailing slashes of the remainder are discarded again; a path
with no directory part gives "." and a root-only remainder gives "/". -/
def posixDirname (l : List Char) : List Char :=
  if l = [] then ['.']
  else
    let t := stripTrailing l
    if t = [] then ['/']
    else
      let pre := dropLastComponent t
      if pre = [] then ['.']
      else
        let d := stripTrailing pre
        if d = [] then ['/'] else d

/-- Collapse every run of consecutive slashes to a single slash.  This is the
normalization under which a parent/leaf decomposition is compared with the
original path. -/
def normalizePath : List Char → List Char
  | [] => []
  | [a] => [a]
  | a :: b :: rest =>
    if a = '/' ∧ b = '/' then normalizePath (b :: rest)
    else a :: normalizePath (b :: rest)

/-- No two adjacent characters are both slashes. -/
def noDoubleSlash : List Char → Bool
  | a :: b :: rest => (!(a = '/' && b = '/')) && noDoubleSlash (b :: rest)
  | _ => true

/-- A canonical data-object path as produced by the external path resolver:
absolute, at least one component, no repeated slashes, no trailing slash. -/
abbrev IsCanonicalObjPath (p : List Char) : Prop :=
  p.head? = some '/' ∧ 2 ≤ p.length ∧ p.getLast? ≠ some '/' ∧ noDoubleSlash p = true

/-! ## Protocol constants

These numeric constants come from the external iRODS protocol headers
(rodsErrorTable.h, rodsGenQuery.h), which are not part of this repository;
their exact values do not affect any claim. -/

/-- The catalog status reported when a query matches no rows. -/
def CAT_NO_ROWS_FOUND : Int := -808000

/-- Capacity of the preallocated condition arrays of a query descriptor. -/
def MAX_NUM_CONDITIONALS : Nat := 20

def COL_COLL_NAME : Nat := 501
def COL_DATA_NAME : Nat := 403
def COL_META_DATA_ATTR_NAME : Nat := 600
def COL_META_DATA_ATTR_VALUE : Nat := 601
def COL_META_DATA_ATTR_UNITS : Nat := 602
def COL_META_COLL_ATTR_NAME : Nat := 610
def COL_META_COLL_ATTR_VALUE : Nat := 611
def COL_META_COLL_ATTR_UNITS : Nat := 612

/-! ## Query descriptors (genQueryInp_t) and the predicate compiler -/

/-- A single query condition, as in baton.h: a catalog column id, an
operator string and a raw value string. -/
structure query_cond where
  column : Nat
  op : String
  value : String
deriving DecidableEq, Repr

/-- Model of `genQueryInp_t` as used by baton.c: selected columns, row
limit, continuation token and the parallel condition arrays (column index
array, clause string array, fill count).  In the C code the condition
arrays are preallocated with capacity `MAX_NUM_CONDITIONALS`; the model
tracks their logical contents. -/
structure GenQueryInp where
  selectInx : List Nat
  selectVal : List Nat
  selectLen : Nat
  maxRows : Int
  continueInx : Int
  sqlCondInx : List Nat
  sqlCondVal : List String
  sqlCondLen : Nat
deriving DecidableEq, Repr

/-- Translation of `make_query_input` (baton.c:361): a fresh descriptor
selecting the first `num_columns` of `columns`, with zeroed special select
operations, the given row limit, continuation token 0 and an empty
condition list. -/
def make_query_input (max_rows : Int) (num_columns : Nat) (columns : List Nat) :
    GenQueryInp :=
  { selectInx := columns.take num_columns
    selectVal := List.replicate num_columns 0
    selectLen := num_columns
    maxRows := max_rows
    continueInx := 0
    sqlCondInx := []
    sqlCondVal := []
    sqlCondLen := 0 }

/-- The clause construction inlined in `add_query_conds` (baton.c:413-415):
a buffer of exactly `strlen(value) + strlen(op) + 3 + 1` bytes is filled by
`snprintf` with the operator, a space, and the value wrapped in single
quotes; `snprintf` writes at most `size - 1` characters. -/
def compile_expr (c : query_cond) : String :=
  let expr_size := c.value.length + c.op.length + 3 + 1
  String.mk ((c.op ++ " " ++ squoteS ++ c.value ++ squoteS).toList.take (expr_size - 1))

/-- One iteration of the `add_query_conds` loop (baton.c:409-426): the
column id and the compiled clause are written at index `sqlCondLen` of the
parallel arrays and the count is incremented.  The C code performs no
check against `MAX_NUM_CONDITIONALS` here. -/
def add_query_cond1 (q : GenQueryInp) (c : query_cond) : GenQueryInp :=
  { q with
    sqlCondInx := q.sqlCondInx ++ [c.column]
    sqlCondVal := q.sqlCondVal ++ [compile_expr c]
    sqlCondLen := q.sqlCondLen + 1 }

/-- Translation of `add_query_conds` (baton.c:407): compile and append each
condition in the order given. -/
def add_query_conds (q : GenQueryInp) (conds : List query_cond) : GenQueryInp :=
  conds.foldl add_query_cond1 q

/-! ## Resolved paths and the four query shapes -/

/-- Catalog object kinds relevant to baton.c (`objType_t`). -/
inductive ObjType where
  | DATA_OBJ_T
  | COLL_OBJ_T
  | UNKNOWN_T
deriving DecidableEq, Repr

/-- The fields of `rodsPath_t` that baton.c reads: the resolved canonical
path and the object kind determined by the external resolver. -/
structure RodsPath where
  outPath : String
  objType : ObjType
deriving DecidableEq, Repr

/-- Translation of `prepare_obj_list` (baton.c:634): split the path with
dirname/basename, add collection-name and data-name equality conditions,
and add an attribute-name equality condition only when `attr_name` is not
NULL (modelled as `Option.some`). -/
def prepare_obj_list (q : GenQueryInp) (rods_path : RodsPath)
    (attr_name : Option String) : GenQueryInp :=
  let path := rods_path.outPath
  let coll_name : String := String.mk (posixDirname path.toList)
  let data_name : String := String.mk (posixBasename path.toList)
  let cn : query_cond := ⟨COL_COLL_NAME, "=", coll_name⟩
  let dn : query_cond := ⟨COL_DATA_NAME, "=", data_name⟩
  match attr_name with
  | some a => add_query_conds q [cn, dn, ⟨COL_META_DATA_ATTR_NAME, "=", a⟩]
  | none => add_query_conds q [cn, dn]

/-- Translation of `prepare_col_list` (baton.c:668). -/
def prepare_col_list (q : GenQueryInp) (rods_path : RodsPath)
    (attr_name : Option String) : GenQueryInp :=
  let cn : query_cond := ⟨COL_COLL_NAME, "=", rods_path.outPath⟩
  match attr_name with
  | some a => add_query_conds q [cn, ⟨COL_META_COLL_ATTR_NAME, "=", a⟩]
  | none => add_query_conds q [cn]

/-- Translation of `prepare_obj_search` (baton.c:689). -/
def prepare_obj_search (q : GenQueryInp) (attr_name attr_value : String) :
    GenQueryInp :=
  add_query_conds q [⟨COL_META_DATA_ATTR_NAME, "=", attr_name⟩,
                     ⟨COL_META_DATA_ATTR_VALUE, "=", attr_value⟩]

/-- Translation of `prepare_col_search` (baton.c:701). -/
def prepare_col_search (q : GenQueryInp) (attr_name attr_value : String) :
    GenQueryInp :=
  add_query_conds q [⟨COL_META_COLL_ATTR_NAME, "=", attr_name⟩,
                     ⟨COL_META_COLL_ATTR_VALUE, "=", attr_value⟩]

/-- Column set selected by `list_metadata` for a data object. -/
def objListColumns : List Nat :=
  [COL_META_DATA_ATTR_NAME, COL_META_DATA_ATTR_VALUE, COL_META_DATA_ATTR_UNITS]

/-- Column set selected by `list_metadata` for a collection. -/
def colListColumns : List Nat :=
  [COL_META_COLL_ATTR_NAME, COL_META_COLL_ATTR_VALUE, COL_META_COLL_ATTR_UNITS]

/-- Column set of `search_metadata` (baton.c:273). -/
def searchColumns : List Nat := [COL_COLL_NAME, COL_DATA_NAME]

/-- The fresh descriptor `list_metadata` builds for a data object. -/
def objListInput : GenQueryInp := make_query_input 10 3 objListColumns

/-- The fresh descriptor `list_metadata` builds for a collection. -/
def colListInput : GenQueryInp := make_query_input 10 3 colListColumns

/-- The collection-search descriptor built by `search_metadata`
(baton.c:281-282): one selected column, two conditions. -/
def colSearchInput (attr_name attr_value : String) : GenQueryInp :=
  prepare_col_search (make_query_input 10 1 searchColumns) attr_name attr_value

/-- The data-object-search descriptor built by `search_metadata`
(baton.c:289-290): two selected columns, two conditions. -/
def objSearchInput (attr_name attr_value : String) : GenQueryInp :=
  prepare_obj_search (make_query_input 10 2 searchColumns) attr_name attr_value

/-! ## Metadata mutation mapping -/

/-- The metadata operations of baton (`metadata_op` in baton.h; the spec
names them ADD and REMOVE). -/
inductive metadata_op where
  | META_ADD
  | META_REM
deriving DecidableEq, Repr

/-- Modelled from the spec: the protocol opcode name for the ADD operation
(`META_ADD_NAME` is defined in baton.h, which is not under src/; the spec
example vector starts with "mod add"). -/
def META_ADD_NAME : String := "mod add"

/-- Modelled from the spec: the protocol opcode name for the REMOVE
operation (`META_REM_NAME` is defined in baton.h, which is not under
src/). -/
def META_REM_NAME : String := "mod rm"

/-- Translation of `metadata_op_name` (baton.c:615). -/
def metadata_op_name : metadata_op → String
  | .META_ADD => META_ADD_NAME
  | .META_REM => META_REM_NAME

/-- The named-argument record `mod_metadata_in` filled by `modify_metadata`
(baton.c:331-337). -/
structure ModMetadataIn where
  op : metadata_op
  type_arg : String
  rods_path : RodsPath
  attr_name : String
  attr_value : String
  attr_units : String
deriving DecidableEq, Repr

/-- The fixed-arity positional argument record `modAVUMetadataInp_t` of the
remote mutation call. -/
structure ModAVUMetadataInp where
  arg0 : String
  arg1 : String
  arg2 : String
  arg3 : String
  arg4 : String
  arg5 : String
  arg6 : String
  arg7 : String
  arg8 : String
  arg9 : String
deriving DecidableEq, Repr

/-- Translation of `map_mod_args` (baton.c:600). -/
def map_mod_args (i : ModMetadataIn) : ModAVUMetadataInp :=
  { arg0 := metadata_op_name i.op
    arg1 := i.type_arg
    arg2 := i.rods_path.outPath
    arg3 := i.attr_name
    arg4 := i.attr_value
    arg5 := i.attr_units
    arg6 := ""
    arg7 := ""
    arg8 := ""
    arg9 := "" }

/-- The ten positional slots of a `modAVUMetadataInp_t`, in order. -/
def modArgVector (m : ModAVUMetadataInp) : List String :=
  [m.arg0, m.arg1, m.arg2, m.arg3, m.arg4, m.arg5, m.arg6, m.arg7, m.arg8, m.arg9]

/-- The argument-vector construction of `modify_metadata` (baton.c:303-341):
select the type discriminator from the object kind ("-d" for a data object,
"-C" for a collection, failure otherwise), fill the named-argument record
and map it to the positional vector submitted to `rcModAVUMetadata`.  The
remote submission itself is external. -/
def modify_metadata_argv (rods_path : RodsPath) (op : metadata_op)
    (attr_name attr_value attr_units : String) : Option (List String) :=
  match rods_path.objType with
  | .DATA_OBJ_T =>
    some (modArgVector (map_mod_args
      ⟨op, "-d", rods_path, attr_name, attr_value, attr_units⟩))
  | .COLL_OBJ_T =>
    some (modArgVector (map_mod_args
      ⟨op, "-C", rods_path, attr_name, attr_value, attr_units⟩))
  | .UNKNOWN_T => none

/-! ## Query pages and the result row serializer -/

/-- One column of a query page (`sqlResult_t`): a stride `len` and a flat
buffer holding one null-terminated run of `len` bytes per row. -/
structure SqlResult where
  len : Nat
  value : List Char
deriving DecidableEq, Repr

/-- Model of `genQueryOut_t`: row count, column count, continuation token
and the per-column result buffers. -/
structure GenQueryOut where
  rowCnt : Nat
  attriCnt : Nat
  continueInx : Int
  sqlResult : List SqlResult
deriving DecidableEq, Repr

/-- A serialized result row: labels paired with cell values, in insertion
order (a jansson JSON object). -/
abbrev Record := List (String × String)

/-- Model of jansson `json_object_set_new`: replace the value in place if
the key is already present, otherwise append the pair. -/
def recordSet (r : Record) (k v : String) : Record :=
  match r with
  | [] => [(k, v)]
  | (k0, v0) :: rest =>
    if k0 = k then (k0, v) :: rest else (k0, v0) :: recordSet rest k v

/-- The cell of column `sr` at row `row` (baton.c:495-496): the C string
starting at offset `row * sr.len` of the flat buffer. -/
def cellChars (sr : SqlResult) (row : Nat) : List Char :=
  (sr.value.drop (row * sr.len)).takeWhile (fun c => c ≠ nulChar)

/-- The cell of column `sr` at row `row`, as a string. -/
def cellString (sr : SqlResult) (row : Nat) : String :=
  String.mk (cellChars sr row)

/-- The inner column loop of `make_json_objects` (baton.c:494-506),
processing columns `i, i+1, ...` of one row; the first argument is the
number of remaining loop iterations (the loop runs for `i` from 0 up to
`attriCnt`).  Indexing past the end of either the result array or the
label array is undefined behaviour in C and yields `none` in the model. -/
def make_json_row (out : GenQueryOut) (labels : List String) (row : Nat) :
    Nat → Nat → Record → Option Record
  | 0, _, acc => some acc
  | n + 1, i, acc =>
    match out.sqlResult[i]?, labels[i]? with
    | some sr, some lab =>
      make_json_row out labels row n (i + 1) (recordSet acc lab (cellString sr row))
    | _, _ => none

/-- The outer row loop of `make_json_objects` (baton.c:490-515), processing
rows `row, row+1, ...` in order; the first argument is the number of
remaining rows. -/
def make_json_rows (out : GenQueryOut) (labels : List String) :
    Nat → Nat → Option (List Record)
  | 0, _ => some []
  | n + 1, row =>
    match make_json_row out labels row out.attriCnt 0 [],
          make_json_rows out labels n (row + 1) with
    | some r, some rest => some (r :: rest)
    | _, _ => none

/-- Translation of `make_json_objects` (baton.c:486): one record per row,
rows in server order, each record pairing `labels[i]` with the cell of
column `i`, for `i` below the page column count. -/
def make_json_objects (out : GenQueryOut) (labels : List String) :
    Option (List Record) :=
  make_json_rows out labels out.rowCnt 0

/-! ## The chunked query executor -/

/-- One remote response to an `rcGenQuery` call: the returned status and
the output page the call produced. -/
structure RemoteRsp where
  status : Int
  out : GenQueryOut
deriving DecidableEq, Repr

/-- Outcome of `do_query`.  `ok` is the accumulated record sequence;
`error` is the error path of baton.c:469 (the accumulated array is
discarded and NULL is returned, after logging the carried status);
`badChunk` marks a page the serializer could not process (out-of-bounds
column access, undefined behaviour in C); `stuck` marks a run that
exhausted the finite response script while the loop still demanded another
remote call (the C loop would keep calling `rcGenQuery`). -/
inductive DoQueryResult where
  | ok (records : List Record)
  | error (status : Int)
  | badChunk
  | stuck
deriving DecidableEq, Repr

/-- Translation of the `do_query` loop (baton.c:441-465).  The loop runs
while `chunk_num == 0 || continueInx > 0`, where `continueInx` is read from
the latest response.  A `CAT_NO_ROWS_FOUND` status is only logged (neither
`chunk_num` nor the accumulator changes); any other non-zero status takes
the error path; otherwise the response page is serialized and appended and
`chunk_num` is incremented.  Each iteration consumes one scripted
response. -/
def doQueryLoop (labels : List String) :
    List RemoteRsp → Nat → Int → GenQueryInp → List Record → DoQueryResult
  | [], chunkNum, lastInx, _, acc =>
    if chunkNum = 0 ∨ lastInx > 0 then .stuck else .ok acc
  | rsp :: rest, chunkNum, lastInx, qIn, acc =>
    if chunkNum = 0 ∨ lastInx > 0 then
      if rsp.status = CAT_NO_ROWS_FOUND then
        doQueryLoop labels rest chunkNum rsp.out.continueInx qIn acc
      else if rsp.status ≠ 0 then
        .error rsp.status
      else
        match make_json_objects rsp.out labels with
        | none => .badChunk
        | some chunk =>
          doQueryLoop labels rest (chunkNum + 1) rsp.out.continueInx
            { qIn with continueInx := rsp.out.continueInx } (acc ++ chunk)
    else
      .ok acc

/-- Translation of `do_query` (baton.c:431): run the loop from chunk 0 with
an empty accumulator against the given response script. -/
def do_query (qIn : GenQueryInp) (labels : List String)
    (script : List RemoteRsp) : DoQueryResult :=
  doQueryLoop labels script 0 0 qIn []

/-- The record chunk a single successful response contributes. -/
def chunkOf (labels : List String) (r : RemoteRsp) : List Record :=
  (make_json_objects r.out labels).getD []

/-- Model of `json_array_extend(results, x)` where `x` is a `do_query`
result: extending with NULL is a no-op whose error return baton.c ignores
(baton.c:285, 293), so only an `ok` result contributes records. -/
def extendIfOk (acc : List Record) : DoQueryResult → List Record
  | .ok records => acc ++ records
  | _ => acc

/-- The labels `search_metadata` passes to both of its queries
(baton.c:272). -/
def searchLabels : List String := ["collection", "data_object"]

/-- Translation of `search_metadata` (baton.c:269): run the
collection-search query, then the data-object-search query, extending one
result array with each outcome in that order.  The two response scripts
stand for the remote behaviour of the two queries. -/
def search_metadata (attr_name attr_value : String)
    (colScript objScript : List RemoteRsp) : List Record :=
  let collections := do_query (colSearchInput attr_name attr_value)
    searchLabels colScript
  let results := extendIfOk [] collections
  let data_objects := do_query (objSearchInput attr_name attr_value)
    searchLabels objScript
  extendIfOk results data_objects

/-! ## Path projection -/

/-- Translation of `data_object_path_to_json` (baton.c:570): the path is
split with dirname/basename into a two-field record. -/
def data_object_path_to_json (path : String) : Record :=
  [("collection", String.mk (posixDirname path.toList)),
   ("data_object", String.mk (posixBasename path.toList))]

/-- Translation of `collection_path_to_json` (baton.c:590). -/
def collection_path_to_json (path : String) : Record :=
  [("collection", path)]

/-! ## Helper lemmas -/

theorem add_query_conds_cons (q : GenQueryInp) (c : query_cond)
    (cs : List query_cond) :
    add_query_conds q (c :: cs) = add_query_conds (add_query_cond1 q c) cs := rfl

theorem add_query_conds_spec (conds : List query_cond) (q : GenQueryInp) :
    (add_query_conds q conds).sqlCondInx = q.sqlCondInx ++ conds.map (fun c => c.column)
    ∧ (add_query_conds q conds).sqlCondVal = q.sqlCondVal ++ conds.map compile_expr
    ∧ (add_query_conds q conds).sqlCondLen = q.sqlCondLen + conds.length := by
  induction conds generalizing q with
  | nil => simp [add_query_conds]
  | cons c cs ih =>
    rw [add_query_conds_cons]
    obtain ⟨h1, h2, h3⟩ := ih (add_query_cond1 q c)
    refine ⟨?_, ?_, ?_⟩
    · rw [h1]; simp [add_query_cond1]
    · rw [h2]; simp [add_query_cond1]
    · rw [h3]; simp [add_query_cond1]; omega

theorem compile_expr_eq (c : query_cond) :
    compile_expr c = c.op ++ " " ++ squoteS ++ c.value ++ squoteS := by
  have hd : (c.op ++ " " ++ squoteS ++ c.value ++ squoteS).toList
      = c.op.toList ++ " ".toList ++ squoteS.toList ++ c.value.toList
        ++ squoteS.toList := by
    simp [String.data_append]
  have h1 : (c.op ++ " " ++ squoteS ++ c.value ++ squoteS).toList.length
      = c.value.length + c.op.length + 3 := by
    rw [hd]
    simp only [List.length_append]
    have e1 : (" " : String).toList.length = 1 := rfl
    have e2 : squoteS.toList.length = 1 := rfl
    have e3 : c.op.toList.length = c.op.length := rfl
    have e4 : c.value.toList.length = c.value.length := rfl
    rw [e1, e2, e3, e4]
    omega
  have h2 : c.value.length + c.op.length + 3 + 1 - 1
      = (c.op ++ " " ++ squoteS ++ c.value ++ squoteS).toList.length := by
    rw [h1]
    omega
  unfold compile_expr
  simp only []
  rw [h2, List.take_length]
  rfl

theorem recordSet_append (r : Record) (k v : String)
    (h : k ∉ r.map Prod.fst) : recordSet r k v = r ++ [(k, v)] := by
  induction r with
  | nil => rfl
  | cons p rest ih =>
    obtain ⟨k0, v0⟩ := p
    rw [recordSet]
    have hne : k0 ≠ k := by
      intro he
      exact h (by simp [he])
    have hrest : k ∉ rest.map Prod.fst := by
      intro hm
      exact h (by simp [hm])
    simp [hne, ih hrest]

theorem make_json_row_keys (out : GenQueryOut) (labels : List String)
    (row : Nat) :
    ∀ (n i : Nat) (acc r : Record),
      make_json_row out labels row n i acc = some r →
      (acc.map Prod.fst ++ (labels.drop i).take n).Nodup →
      r.map Prod.fst = acc.map Prod.fst ++ (labels.drop i).take n := by
  intro n
  induction n with
  | zero =>
    intro i acc r hmk hnd
    rw [make_json_row] at hmk
    simp only [Option.some.injEq] at hmk
    subst hmk
    simp
  | succ n ih =>
    intro i acc r hmk hnd
    rw [make_json_row] at hmk
    cases hsr : out.sqlResult[i]? with
    | none =>
      rw [hsr] at hmk
      cases hl : labels[i]? <;> rw [hl] at hmk <;> simp at hmk
    | some sr =>
      cases hl : labels[i]? with
      | none => rw [hsr, hl] at hmk; simp at hmk
      | some lab =>
        rw [hsr, hl] at hmk
        simp only [] at hmk
        have hil : i < labels.length := by
          by_contra hc
          rw [List.getElem?_eq_none (by omega)] at hl
          exact Option.noConfusion hl
        have hdrop : labels.drop i = lab :: labels.drop (i + 1) := by
          rw [List.drop_eq_getElem_cons hil]
          have he := List.getElem?_eq_getElem hil
          rw [hl] at he
          rw [Option.some_inj.mp he.symm]
        have htake : (labels.drop i).take (n + 1)
            = lab :: (labels.drop (i + 1)).take n := by
          rw [hdrop, List.take_succ_cons]
        rw [htake] at hnd ⊢
        have hknotin : lab ∉ acc.map Prod.fst := by
          intro hmem
          have hd2 := List.disjoint_of_nodup_append hnd
          exact hd2 hmem (List.mem_cons_self lab _)
        have hset : recordSet acc lab (cellString sr row)
            = acc ++ [(lab, cellString sr row)] := recordSet_append _ _ _ hknotin
        rw [hset] at hmk
        have hnd2 : ((acc ++ [(lab, cellString sr row)]).map Prod.fst
            ++ (labels.drop (i + 1)).take n).Nodup := by
          simp only [List.map_append, List.map_cons, List.map_nil,
            List.append_assoc, List.cons_append, List.nil_append]
          simpa using hnd
        have := ih (i + 1) _ r hmk hnd2
        rw [this]
        simp

theorem make_json_row_isSome (out : GenQueryOut) (labels : List String)
    (row : Nat) :
    ∀ (n i : Nat), i + n ≤ labels.length → i + n ≤ out.sqlResult.length →
      ∀ acc : Record, (make_json_row out labels row n i acc).isSome := by
  intro n
  induction n with
  | zero =>
    intro i hl hs acc
    rw [make_json_row]
    simp
  | succ n ih =>
    intro i hl hs acc
    rw [make_json_row]
    rw [List.getElem?_eq_getElem (by omega : i < out.sqlResult.length),
        List.getElem?_eq_getElem (by omega : i < labels.length)]
    exact ih (i + 1) (by omega) (by omega) _

theorem make_json_rows_length (out : GenQueryOut) (labels : List String) :
    ∀ (n row : Nat) (l : List Record),
      make_json_rows out labels n row = some l → l.length = n := by
  intro n
  induction n with
  | zero =>
    intro row l hmk
    rw [make_json_rows] at hmk
    simp only [Option.some.injEq] at hmk
    subst hmk
    rfl
  | succ n ih =>
    intro row l hmk
    rw [make_json_rows] at hmk
    cases h1 : make_json_row out labels row out.attriCnt 0 [] with
    | none => rw [h1] at hmk; simp at hmk
    | some r =>
      cases h2 : make_json_rows out labels n (row + 1) with
      | none => rw [h1, h2] at hmk; simp at hmk
      | some rest =>
        rw [h1, h2] at hmk
        simp only [Option.some.injEq] at hmk
        subst hmk
        simp [ih (row + 1) rest h2]

theorem make_json_rows_isSome (out : GenQueryOut) (labels : List String)
    (hl : out.attriCnt ≤ labels.length)
    (hs : out.attriCnt ≤ out.sqlResult.length) :
    ∀ (n row : Nat), (make_json_rows out labels n row).isSome := by
  intro n
  induction n with
  | zero =>
    intro row
    rw [make_json_rows]
    simp
  | succ n ih =>
    intro row
    rw [make_json_rows]
    have h1 := make_json_row_isSome out labels row out.attriCnt 0
      (by omega) (by omega) []
    have h2 := ih (row + 1)
    cases hx : make_json_row out labels row out.attriCnt 0 [] with
    | none => rw [hx] at h1; simp at h1
    | some r =>
      cases hy : make_json_rows out labels n (row + 1) with
      | none => rw [hy] at h2; simp at h2
      | some rest => simp

theorem make_json_rows_mem (out : GenQueryOut) (labels : List String)
    (P : Record → Prop)
    (hP : ∀ row r, make_json_row out labels row out.attriCnt 0 [] = some r →
      P r) :
    ∀ (n row : Nat) (l : List Record),
      make_json_rows out labels n row = some l → ∀ rec ∈ l, P rec := by
  intro n
  induction n with
  | zero =>
    intro row l hmk
    rw [make_json_rows] at hmk
    simp only [Option.some.injEq] at hmk
    subst hmk
    simp
  | succ n ih =>
    intro row l hmk
    rw [make_json_rows] at hmk
    cases h1 : make_json_row out labels row out.attriCnt 0 [] with
    | none => rw [h1] at hmk; simp at hmk
    | some r =>
      cases h2 : make_json_rows out labels n (row + 1) with
      | none => rw [h1, h2] at hmk; simp at hmk
      | some rest =>
        rw [h1, h2] at hmk
        simp only [Option.some.injEq] at hmk
        intro rec hmem
        rw [← hmk] at hmem
        rcases List.mem_cons.mp hmem with hh | hh
        · exact hh ▸ hP row r h1
        · exact ih (row + 1) rest h2 rec hh

theorem make_json_objects_keys (out : GenQueryOut) (labels : List String)
    (l : List Record) (hmk : make_json_objects out labels = some l)
    (hnd : (labels.take out.attriCnt).Nodup) :
    ∀ rec ∈ l, rec.map Prod.fst = labels.take out.attriCnt := by
  have hP : ∀ row r, make_json_row out labels row out.attriCnt 0 [] = some r →
      r.map Prod.fst = labels.take out.attriCnt := by
    intro row r h
    have := make_json_row_keys out labels row out.attriCnt 0 [] r h
      (by simpa using hnd)
    simpa using this
  exact make_json_rows_mem out labels _ hP out.rowCnt 0 l hmk

theorem make_json_objects_length (out : GenQueryOut) (labels : List String)
    (l : List Record) (hmk : make_json_objects out labels = some l) :
    l.length = out.rowCnt :=
  make_json_rows_length out labels out.rowCnt 0 l hmk

theorem make_json_objects_isSome (out : GenQueryOut) (labels : List String)
    (hl : out.attriCnt ≤ labels.length)
    (hs : out.attriCnt ≤ out.sqlResult.length) :
    (make_json_objects out labels).isSome :=
  make_json_rows_isSome out labels hl hs out.rowCnt 0

theorem dropWhile_head_false (q : Char → Bool) :
    ∀ (l : List Char) (x : Char) (xs : List Char),
      l.dropWhile q = x :: xs → q x = false := by
  intro l
  induction l with
  | nil => intro x xs hx; simp [List.dropWhile] at hx
  | cons a rest ih =>
    intro x xs hx
    rw [List.dropWhile_cons] at hx
    by_cases hq : q a
    · rw [if_pos hq] at hx
      exact ih x xs hx
    · rw [if_neg hq] at hx
      injection hx with h1 _
      rw [← h1]
      simpa using hq

theorem noDoubleSlash_cons_cons (a b : Char) (l : List Char) :
    noDoubleSlash (a :: b :: l) = true
      ↔ ¬(a = '/' ∧ b = '/') ∧ noDoubleSlash (b :: l) = true := by
  rw [noDoubleSlash]
  simp [Bool.and_eq_true, not_and]
  tauto

theorem stripTrailing_eq_self (l : List Char) (h : l.getLast? ≠ some '/') :
    stripTrailing l = l := by
  unfold stripTrailing
  cases hrl : l.reverse with
  | nil =>
    rw [List.reverse_eq_nil_iff.mp hrl]
    rfl
  | cons x xs =>
    have hx : x ≠ '/' := by
      intro he
      apply h
      rw [← List.head?_reverse l, hrl, he]
      rfl
    rw [List.dropWhile_cons, if_neg (by simpa using hx), ← hrl,
      List.reverse_reverse]

theorem noDoubleSlash_last_of_append (l2 : List Char) :
    ∀ l1 : List Char, noDoubleSlash (l1 ++ '/' :: l2) = true → l1 ≠ [] →
      l1.getLast? ≠ some '/' := by
  intro l1
  induction l1 with
  | nil => intro _ hne; exact absurd rfl hne
  | cons a rest ih =>
    intro h _
    cases rest with
    | nil =>
      simp only [List.cons_append, List.nil_append] at h
      rw [noDoubleSlash_cons_cons] at h
      intro he
      simp only [List.getLast?_singleton, Option.some.injEq] at he
      exact h.1 ⟨he, rfl⟩
    | cons b rest2 =>
      simp only [List.cons_append] at h
      rw [noDoubleSlash_cons_cons] at h
      have h2 : noDoubleSlash ((b :: rest2) ++ '/' :: l2) = true := by
        simpa using h.2
      rw [List.getLast?_cons_cons]
      exact ih h2 (by simp)

theorem normalizePath_of_noDoubleSlash :
    ∀ l : List Char, noDoubleSlash l = true → normalizePath l = l := by
  intro l
  induction l with
  | nil => intro _; rfl
  | cons a rest ih =>
    cases rest with
    | nil => intro _; rfl
    | cons b rest2 =>
      intro h
      rw [noDoubleSlash_cons_cons] at h
      show (if a = '/' ∧ b = '/' then normalizePath (b :: rest2)
        else a :: normalizePath (b :: rest2)) = a :: b :: rest2
      rw [if_neg h.1, ih h.2]

theorem canonical_parts (p : List Char) (h : IsCanonicalObjPath p) :
    ∃ pre leaf : List Char,
      p = pre ++ '/' :: leaf
      ∧ leaf ≠ []
      ∧ (∀ c ∈ leaf, c ≠ '/')
      ∧ posixBasename p = leaf
      ∧ posixDirname p = (if pre = [] then ['/'] else pre) := by
  obtain ⟨hhead, hlen, hlast, hndd⟩ := h
  have hpne : p ≠ [] := by
    intro he
    rw [he] at hhead
    exact Option.noConfusion hhead
  have hstrip : stripTrailing p = p := stripTrailing_eq_self p hlast
  have hmem : '/' ∈ p.reverse := by
    rw [List.mem_reverse]
    cases p with
    | nil => exact absurd rfl hpne
    | cons c t =>
      have hc : c = '/' := by simpa using hhead
      rw [hc]
      exact List.mem_cons_self _ _
  have hdropne : p.reverse.dropWhile (fun c => c ≠ '/') ≠ [] := by
    intro he
    have h2 := List.dropWhile_eq_nil_iff.mp he '/' hmem
    simp at h2
  obtain ⟨s0, restR, hdrop⟩ := List.exists_cons_of_ne_nil hdropne
  have hs0 : s0 = '/' := by
    have := dropWhile_head_false _ _ _ _ hdrop
    simpa using this
  subst hs0
  set tk := p.reverse.takeWhile (fun c => c ≠ '/') with htk
  have h1 : tk ++ '/' :: restR = p.reverse := by
    rw [htk, ← hdrop]
    exact List.takeWhile_append_dropWhile _ _
  have hp2 : p = restR.reverse ++ '/' :: tk.reverse := by
    have h2 := congrArg List.reverse h1
    rw [List.reverse_reverse, List.reverse_append] at h2
    rw [← h2]
    simp
  have hrevne : p.reverse ≠ [] := by simpa using hpne
  obtain ⟨r0, rev0, hrcons⟩ := List.exists_cons_of_ne_nil hrevne
  have hr0 : r0 ≠ '/' := by
    intro he
    apply hlast
    rw [← List.head?_reverse p, hrcons, he]
    rfl
  have htkne : tk.reverse ≠ [] := by
    rw [htk, hrcons, List.takeWhile_cons, if_pos (by simpa using hr0)]
    simp
  have hbase : posixBasename p = tk.reverse := by
    show (if p = [] then ['.']
      else if stripTrailing p = [] then ['/']
      else lastComponent (stripTrailing p)) = _
    rw [if_neg hpne, hstrip, if_neg hpne, htk]
    rfl
  have hdlc : dropLastComponent p = restR.reverse ++ ['/'] := by
    show (p.reverse.dropWhile (fun c => c ≠ '/')).reverse = _
    rw [hdrop]
    simp
  have hst2 : stripTrailing (restR.reverse ++ ['/'])
      = stripTrailing restR.reverse := by
    simp [stripTrailing, List.dropWhile_cons]
  refine ⟨restR.reverse, tk.reverse, hp2, htkne, ?_, hbase, ?_⟩
  · intro c hc
    rw [List.mem_reverse, htk] at hc
    have := List.mem_takeWhile_imp hc
    simpa using this
  · show (if p = [] then ['.']
      else if stripTrailing p = [] then ['/']
      else if dropLastComponent (stripTrailing p) = [] then ['.']
      else if stripTrailing (dropLastComponent (stripTrailing p)) = [] then ['/']
      else stripTrailing (dropLastComponent (stripTrailing p))) = _
    rw [if_neg hpne, hstrip, if_neg hpne, hdlc, if_neg (by simp), hst2]
    by_cases hre : restR.reverse = []
    · rw [hre]
      rw [show stripTrailing ([] : List Char) = [] from rfl]
    · have hnd2 : noDoubleSlash (restR.reverse ++ '/' :: tk.reverse)
          = true := by
        rw [← hp2]
        exact hndd
      have hplast : restR.reverse.getLast? ≠ some '/' :=
        noDoubleSlash_last_of_append _ restR.reverse hnd2 hre
      rw [stripTrailing_eq_self _ hplast, if_neg hre]

theorem doQueryLoop_error (labels : List String) (s : Int) (eout : GenQueryOut)
    (rest : List RemoteRsp) (hs0 : s ≠ 0) (hsn : s ≠ CAT_NO_ROWS_FOUND) :
    ∀ good : List RemoteRsp,
      (∀ r ∈ good, r.status = 0 ∧ r.out.continueInx > 0
        ∧ (make_json_objects r.out labels).isSome = true) →
    ∀ (chunkNum : Nat) (lastInx : Int) (qIn : GenQueryInp) (acc : List Record),
      (chunkNum = 0 ∨ lastInx > 0) →
      doQueryLoop labels (good ++ ⟨s, eout⟩ :: rest) chunkNum lastInx qIn acc
        = DoQueryResult.error s := by
  intro good
  induction good with
  | nil =>
    intro _ chunkNum lastInx qIn acc hcond
    rw [List.nil_append, doQueryLoop, if_pos hcond]
    simp [hsn, hs0]
  | cons g gs ih =>
    intro hg chunkNum lastInx qIn acc hcond
    obtain ⟨hst, htok, hser⟩ := hg g (List.mem_cons_self g gs)
    rw [List.cons_append, doQueryLoop, if_pos hcond, hst]
    rw [if_neg (by rw [CAT_NO_ROWS_FOUND]; omega)]
    rw [if_neg (by omega)]
    obtain ⟨chunk, hchunk⟩ := Option.isSome_iff_exists.mp hser
    rw [hchunk]
    exact ih (fun r hr => hg r (List.mem_cons_of_mem g hr)) _ _ _ _
      (Or.inr htok)

theorem doQueryLoop_pages (labels : List String) (last : RemoteRsp)
    (hls : last.status = 0) (hlt : ¬ last.out.continueInx > 0)
    (hlser : (make_json_objects last.out labels).isSome = true) :
    ∀ pages : List RemoteRsp,
      (∀ r ∈ pages, r.status = 0 ∧ r.out.continueInx > 0
        ∧ (make_json_objects r.out labels).isSome = true) →
    ∀ (chunkNum : Nat) (lastInx : Int) (qIn : GenQueryInp) (acc : List Record),
      (chunkNum = 0 ∨ lastInx > 0) →
      doQueryLoop labels (pages ++ [last]) chunkNum lastInx qIn acc
        = DoQueryResult.ok
            (acc ++ ((pages ++ [last]).map (chunkOf labels)).flatten) := by
  intro pages
  induction pages with
  | nil =>
    intro _ chunkNum lastInx qIn acc hcond
    rw [List.nil_append, doQueryLoop, if_pos hcond, hls]
    rw [if_neg (by rw [CAT_NO_ROWS_FOUND]; omega)]
    rw [if_neg (by omega)]
    obtain ⟨chunk, hchunk⟩ := Option.isSome_iff_exists.mp hlser
    rw [hchunk]
    show doQueryLoop labels [] (chunkNum + 1) last.out.continueInx
      { qIn with continueInx := last.out.continueInx } (acc ++ chunk) = _
    rw [doQueryLoop]
    rw [if_neg (by omega)]
    simp [chunkOf, hchunk]
  | cons g gs ih =>
    intro hg chunkNum lastInx qIn acc hcond
    obtain ⟨hst, htok, hser⟩ := hg g (List.mem_cons_self g gs)
    rw [List.cons_append, doQueryLoop, if_pos hcond, hst]
    rw [if_neg (by rw [CAT_NO_ROWS_FOUND]; omega)]
    rw [if_neg (by omega)]
    obtain ⟨chunk, hchunk⟩ := Option.isSome_iff_exists.mp hser
    rw [hchunk]
    show doQueryLoop labels (gs ++ [last]) (chunkNum + 1) g.out.continueInx
      { qIn with continueInx := g.out.continueInx } (acc ++ chunk) = _
    rw [ih (fun r hr => hg r (List.mem_cons_of_mem g hr)) _ _ _ _
      (Or.inr htok)]
    simp [chunkOf, hchunk]

theorem chunk_flatten_length (labels : List String) :
    ∀ script : List RemoteRsp,
      (∀ r ∈ script, (make_json_objects r.out labels).isSome = true) →
      ((script.map (chunkOf labels)).flatten).length
        = (script.map (fun r => r.out.rowCnt)).sum := by
  intro script
  induction script with
  | nil => intro _; rfl
  | cons r rs ih =>
    intro h
    obtain ⟨chunk, hchunk⟩ :=
      Option.isSome_iff_exists.mp (h r (List.mem_cons_self r rs))
    simp only [List.map_cons, List.flatten_cons, List.length_append,
      List.sum_cons]
    rw [ih (fun x hx => h x (List.mem_cons_of_mem r hx))]
    simp [chunkOf, hchunk, make_json_objects_length r.out labels chunk hchunk]

theorem doQueryLoop_ok_mem (labels : List String) (P : Record → Prop) :
    ∀ script : List RemoteRsp,
      (∀ rsp ∈ script, rsp.status = 0 → ∀ rec ∈ chunkOf labels rsp, P rec) →
    ∀ (chunkNum : Nat) (lastInx : Int) (qIn : GenQueryInp)
      (acc recs : List Record),
      doQueryLoop labels script chunkNum lastInx qIn acc
        = DoQueryResult.ok recs →
      (∀ rec ∈ acc, P rec) → ∀ rec ∈ recs, P rec := by
  intro script
  induction script with
  | nil =>
    intro _ chunkNum lastInx qIn acc recs hloop hacc
    rw [doQueryLoop] at hloop
    by_cases hcond : chunkNum = 0 ∨ lastInx > 0
    · rw [if_pos hcond] at hloop
      exact absurd hloop (by simp)
    · rw [if_neg hcond] at hloop
      simp only [DoQueryResult.ok.injEq] at hloop
      subst hloop
      exact hacc
  | cons rsp rest ih =>
    intro hp chunkNum lastInx qIn acc recs hloop hacc
    rw [doQueryLoop] at hloop
    by_cases hcond : chunkNum = 0 ∨ lastInx > 0
    · rw [if_pos hcond] at hloop
      by_cases hnr : rsp.status = CAT_NO_ROWS_FOUND
      · rw [if_pos hnr] at hloop
        exact ih (fun r hr => hp r (List.mem_cons_of_mem rsp hr)) _ _ _ _ _
          hloop hacc
      · rw [if_neg hnr] at hloop
        by_cases h0 : rsp.status ≠ 0
        · rw [if_pos h0] at hloop
          exact absurd hloop (by simp)
        · rw [if_neg h0] at hloop
          have hst : rsp.status = 0 := by omega
          cases hx : make_json_objects rsp.out labels with
          | none =>
            rw [hx] at hloop
            exact absurd hloop (by simp)
          | some chunk =>
            rw [hx] at hloop
            refine ih (fun r hr => hp r (List.mem_cons_of_mem rsp hr)) _ _ _ _ _
              hloop ?_
            intro rec hrec
            rcases List.mem_append.mp hrec with hh | hh
            · exact hacc rec hh
            · refine hp rsp (List.mem_cons_self rsp rest) hst rec ?_
              simp [chunkOf, hx, hh]
    · rw [if_neg hcond] at hloop
      simp only [DoQueryResult.ok.injEq] at hloop
      subst hloop
      exact hacc

theorem chunkOf_keys (labels : List String) (rsp : RemoteRsp) (n : Nat)
    (hn : rsp.out.attriCnt = n) (hnd : (labels.take n).Nodup) :
    ∀ rec ∈ chunkOf labels rsp, rec.map Prod.fst = labels.take n := by
  intro rec hrec
  unfold chunkOf at hrec
  cases hx : make_json_objects rsp.out labels with
  | none => rw [hx] at hrec; simp at hrec
  | some l =>
    rw [hx] at hrec
    simp only [Option.getD_some] at hrec
    have := make_json_objects_keys rsp.out labels l hx (by rw [hn]; exact hnd)
      rec hrec
    rw [this, hn]

/-! ## Claim theorems -/

/-- C1 (code_bug): the spec says a `NoRowsFound` status on the first page
makes `do_query` terminate with an empty sequence.  In the code the loop
guard is `chunk_num == 0 || continueInx > 0` and `chunk_num` is only
incremented on a successful page, so after a first `CAT_NO_ROWS_FOUND`
response the guard is still true and the query is re-issued: against a
remote that reports `CAT_NO_ROWS_FOUND` on every call (the behaviour for an
empty result set), no finite response script of any length `k` lets the
loop exit — the run always ends `stuck`, demanding yet another remote
call, and `do_query` never returns the empty sequence. -/
theorem do_query_first_page_no_rows_never_returns (qIn : GenQueryInp)
    (labels : List String) (out : GenQueryOut) (k : Nat) :
    do_query qIn labels (List.replicate k ⟨CAT_NO_ROWS_FOUND, out⟩) =
      DoQueryResult.stuck := by
  suffices h : ∀ (k : Nat) (lastInx : Int) (q : GenQueryInp) (acc : List Record),
      doQueryLoop labels (List.replicate k ⟨CAT_NO_ROWS_FOUND, out⟩) 0 lastInx q acc
        = DoQueryResult.stuck from h k 0 qIn []
  intro k
  induction k with
  | zero => intro l q a; simp [doQueryLoop]
  | succ n ih =>
    intro l q a
    rw [List.replicate_succ]
    simp only [doQueryLoop]
    simp
    exact ih _ _ _

/-- C4: for both entity kinds, the metadata mutation mapper produces the
10-slot positional vector [opcode-name, type discriminator, canonical
path, attribute, value, units, "", "", "", ""], with the four trailing
slots empty. -/
theorem modify_metadata_ten_slot_vector (rp : RodsPath) (op : metadata_op)
    (a v u : String)
    (h : rp.objType = ObjType.DATA_OBJ_T ∨ rp.objType = ObjType.COLL_OBJ_T) :
    modify_metadata_argv rp op a v u =
      some [metadata_op_name op,
            if rp.objType = ObjType.DATA_OBJ_T then "-d" else "-C",
            rp.outPath, a, v, u, "", "", "", ""]
    ∧ ∀ args, modify_metadata_argv rp op a v u = some args → args.length = 10 := by
  constructor
  · rcases h with h | h <;> simp [modify_metadata_argv, h, map_mod_args, modArgVector]
  · intro args ha
    rcases h with h | h <;>
      simp [modify_metadata_argv, h, map_mod_args, modArgVector] at ha <;>
      simp [← ha]

/-- Witness for C4: the ADD mutation on a data object, as in the spec
example. -/
theorem modify_metadata_ten_slot_vector_witness :
    modify_metadata_argv ⟨"/z/o", ObjType.DATA_OBJ_T⟩ metadata_op.META_ADD
        "color" "red" "" =
      some [metadata_op_name metadata_op.META_ADD,
            if (RodsPath.mk "/z/o" ObjType.DATA_OBJ_T).objType = ObjType.DATA_OBJ_T
              then "-d" else "-C",
            (RodsPath.mk "/z/o" ObjType.DATA_OBJ_T).outPath,
            "color", "red", "", "", "", "", ""]
    ∧ ∀ args,
        modify_metadata_argv ⟨"/z/o", ObjType.DATA_OBJ_T⟩ metadata_op.META_ADD
          "color" "red" "" = some args → args.length = 10 :=
  modify_metadata_ten_slot_vector ⟨"/z/o", ObjType.DATA_OBJ_T⟩
    metadata_op.META_ADD "color" "red" "" (Or.inl rfl)

/-- Counterexample for C5: the claim predicts 2 conditions for an empty
filter attribute, but `prepare_obj_list` tests only for NULL
(`if (attr_name)`), so the non-NULL empty string "" yields 3 conditions —
the third filtering on the attribute name being the empty string. -/
theorem prepare_obj_list_empty_attr_counterexample :
    (prepare_obj_list objListInput ⟨"/z/f.txt", ObjType.DATA_OBJ_T⟩
        (some "")).sqlCondLen = 3
    ∧ (prepare_obj_list objListInput ⟨"/z/f.txt", ObjType.DATA_OBJ_T⟩
        (some "")).sqlCondLen ≠ 2 := by
  constructor
  · rfl
  · decide

/-- C5 (amended): `prepare_obj_list` produces exactly 2 conditions when the
attribute filter is absent (NULL) and exactly 3 whenever a filter string is
supplied, including the empty string; only a NULL filter means list all
AVUs. -/
theorem prepare_obj_list_condition_count (rp : RodsPath) (a : Option String) :
    (prepare_obj_list objListInput rp a).sqlCondLen =
      if a.isSome then 3 else 2 := by
  cases a <;>
    simp [prepare_obj_list, add_query_conds, add_query_cond1, objListInput,
          make_query_input]

/-- Counterexample for C6: `add_query_conds` performs no check against
`MAX_NUM_CONDITIONALS`.  Passing `MAX_NUM_CONDITIONALS + 1` conditions to a
fresh descriptor succeeds silently with a condition count above the
ceiling (in C this is an unchecked out-of-bounds write into the
preallocated arrays), not a detected fatal contract violation. -/
theorem add_query_conds_no_ceiling_check :
    (add_query_conds (make_query_input 10 1 [COL_COLL_NAME])
        (List.replicate (MAX_NUM_CONDITIONALS + 1)
          ⟨COL_COLL_NAME, "=", "x"⟩)).sqlCondLen = MAX_NUM_CONDITIONALS + 1
    ∧ ¬ (add_query_conds (make_query_input 10 1 [COL_COLL_NAME])
        (List.replicate (MAX_NUM_CONDITIONALS + 1)
          ⟨COL_COLL_NAME, "=", "x"⟩)).sqlCondLen ≤ MAX_NUM_CONDITIONALS := by
  constructor
  · rw [(add_query_conds_spec _ _).2.2]
    simp [make_query_input]
  · rw [(add_query_conds_spec _ _).2.2]
    simp only [make_query_input, List.length_replicate]
    omega

/-- C6 (amended): each compiled clause is appended to the descriptor's
parallel condition arrays in the order given, keyed by its column id, with
the count incremented per clause; no ceiling check is performed, and every
call site in the repository passes at most 3 conditions to a freshly built
descriptor, within `MAX_NUM_CONDITIONALS`, so all of its writes are in
bounds. -/
theorem add_query_conds_appends_in_order_within_ceiling :
    (∀ (q : GenQueryInp) (conds : List query_cond),
        (add_query_conds q conds).sqlCondInx
          = q.sqlCondInx ++ conds.map (fun c => c.column)
        ∧ (add_query_conds q conds).sqlCondVal
          = q.sqlCondVal ++ conds.map compile_expr
        ∧ (add_query_conds q conds).sqlCondLen = q.sqlCondLen + conds.length)
    ∧ (∀ rp a, (prepare_obj_list objListInput rp a).sqlCondLen
          ≤ MAX_NUM_CONDITIONALS)
    ∧ (∀ rp a, (prepare_col_list colListInput rp a).sqlCondLen
          ≤ MAX_NUM_CONDITIONALS)
    ∧ (∀ a v, (colSearchInput a v).sqlCondLen ≤ MAX_NUM_CONDITIONALS)
    ∧ (∀ a v, (objSearchInput a v).sqlCondLen ≤ MAX_NUM_CONDITIONALS) := by
  refine ⟨fun q conds => add_query_conds_spec conds q, ?_, ?_, ?_, ?_⟩
  · intro rp a
    cases a <;>
      simp [prepare_obj_list, add_query_conds, add_query_cond1, objListInput,
            make_query_input, MAX_NUM_CONDITIONALS]
  · intro rp a
    cases a <;>
      simp [prepare_col_list, add_query_conds, add_query_cond1, colListInput,
            make_query_input, MAX_NUM_CONDITIONALS]
  · intro a v
    simp [colSearchInput, prepare_col_search, add_query_conds, add_query_cond1,
          make_query_input, MAX_NUM_CONDITIONALS]
  · intro a v
    simp [objSearchInput, prepare_obj_search, add_query_conds, add_query_cond1,
          make_query_input, MAX_NUM_CONDITIONALS]

/-- C2: over a script of N successful pages in which every page except the
last carries a positive continuation token (and the last does not),
`do_query` returns the per-page record chunks concatenated in page arrival
order — each chunk listing its rows in server row order, as built by
`make_json_objects` — with total length the sum of the per-page row counts
(no reordering, no deduplication). -/
theorem do_query_concatenates_pages (qIn : GenQueryInp) (labels : List String)
    (pages : List RemoteRsp) (last : RemoteRsp)
    (hpages : ∀ r ∈ pages, r.status = 0 ∧ r.out.continueInx > 0
      ∧ r.out.attriCnt ≤ labels.length
      ∧ r.out.attriCnt ≤ r.out.sqlResult.length)
    (hlast : last.status = 0 ∧ ¬ last.out.continueInx > 0
      ∧ last.out.attriCnt ≤ labels.length
      ∧ last.out.attriCnt ≤ last.out.sqlResult.length) :
    do_query qIn labels (pages ++ [last])
      = DoQueryResult.ok (((pages ++ [last]).map (chunkOf labels)).flatten)
    ∧ (((pages ++ [last]).map (chunkOf labels)).flatten).length
      = ((pages ++ [last]).map (fun r => r.out.rowCnt)).sum := by
  obtain ⟨hls, hlt, hl1, hl2⟩ := hlast
  have hser : ∀ r ∈ pages ++ [last],
      (make_json_objects r.out labels).isSome = true := by
    intro r hr
    rcases List.mem_append.mp hr with hh | hh
    · obtain ⟨_, _, h1, h2⟩ := hpages r hh
      exact make_json_objects_isSome r.out labels h1 h2
    · have hr2 : r = last := by simpa using hh
      subst hr2
      exact make_json_objects_isSome r.out labels hl1 hl2
  constructor
  · have := doQueryLoop_pages labels last hls hlt
      (hser last (by simp)) pages
      (fun r hr => ⟨(hpages r hr).1, (hpages r hr).2.1,
        hser r (List.mem_append_left _ hr)⟩) 0 0 qIn [] (Or.inl rfl)
    simpa [do_query] using this
  · exact chunk_flatten_length labels (pages ++ [last]) hser

/-- Witness for C2: the spec example, a 3-row page with a positive
continuation token followed by a 2-row final page, yielding 5 records with
the first page's rows first. -/
theorem do_query_concatenates_pages_witness :
    do_query objListInput ["value"]
        (([⟨0, ⟨3, 1, 1, [⟨2, ['a', nulChar, 'b', nulChar, 'c', nulChar]⟩]⟩⟩]
          ++ [⟨0, ⟨2, 1, 0, [⟨2, ['d', nulChar, 'e', nulChar]⟩]⟩⟩]
          : List RemoteRsp))
      = DoQueryResult.ok
          (((([⟨0, ⟨3, 1, 1, [⟨2, ['a', nulChar, 'b', nulChar, 'c',
                nulChar]⟩]⟩⟩]
            ++ [⟨0, ⟨2, 1, 0, [⟨2, ['d', nulChar, 'e', nulChar]⟩]⟩⟩]
            : List RemoteRsp)).map
              (chunkOf ["value"])).flatten)
    ∧ (((([⟨0, ⟨3, 1, 1, [⟨2, ['a', nulChar, 'b', nulChar, 'c',
            nulChar]⟩]⟩⟩]
        ++ [⟨0, ⟨2, 1, 0, [⟨2, ['d', nulChar, 'e', nulChar]⟩]⟩⟩]
        : List RemoteRsp)).map
          (chunkOf ["value"])).flatten).length
      = ((([⟨0, ⟨3, 1, 1, [⟨2, ['a', nulChar, 'b', nulChar, 'c', nulChar]⟩]⟩⟩]
        ++ [⟨0, ⟨2, 1, 0, [⟨2, ['d', nulChar, 'e', nulChar]⟩]⟩⟩]
        : List RemoteRsp)).map
          (fun r => r.out.rowCnt)).sum :=
  do_query_concatenates_pages objListInput ["value"]
    [⟨0, ⟨3, 1, 1, [⟨2, ['a', nulChar, 'b', nulChar, 'c', nulChar]⟩]⟩⟩]
    ⟨0, ⟨2, 1, 0, [⟨2, ['d', nulChar, 'e', nulChar]⟩]⟩⟩
    (by decide) (by decide)

/-- C3: if any page of the run returns a status that is non-zero and not
`CAT_NO_ROWS_FOUND` — after any number of successfully processed pages,
each carrying a positive continuation token — `do_query` aborts at that
page with the error outcome carrying the originating status, and the
caller receives no accumulated records (the error outcome is never the
`ok` of any record list; in C the accumulated array is decref-ed and NULL
is returned). -/
theorem do_query_error_all_or_nothing (qIn : GenQueryInp)
    (labels : List String) (good : List RemoteRsp) (s : Int)
    (eout : GenQueryOut) (rest : List RemoteRsp)
    (hgood : ∀ r ∈ good, r.status = 0 ∧ r.out.continueInx > 0
      ∧ r.out.attriCnt ≤ labels.length
      ∧ r.out.attriCnt ≤ r.out.sqlResult.length)
    (hs0 : s ≠ 0) (hsn : s ≠ CAT_NO_ROWS_FOUND) :
    do_query qIn labels (good ++ ⟨s, eout⟩ :: rest) = DoQueryResult.error s
    ∧ ∀ recs, do_query qIn labels (good ++ ⟨s, eout⟩ :: rest)
        ≠ DoQueryResult.ok recs := by
  have h : do_query qIn labels (good ++ ⟨s, eout⟩ :: rest)
      = DoQueryResult.error s :=
    doQueryLoop_error labels s eout rest hs0 hsn good
      (fun r hr => ⟨(hgood r hr).1, (hgood r hr).2.1,
        make_json_objects_isSome r.out labels (hgood r hr).2.2.1
          (hgood r hr).2.2.2⟩)
      0 0 qIn [] (Or.inl rfl)
  refine ⟨h, ?_⟩
  intro recs hok
  rw [h] at hok
  exact DoQueryResult.noConfusion hok

/-- Witness for C3: one successful page followed by an error status. -/
theorem do_query_error_all_or_nothing_witness :
    do_query objListInput ["value"]
        ([⟨0, ⟨1, 1, 5, [⟨2, ['a', nulChar]⟩]⟩⟩]
          ++ ⟨-806000, ⟨0, 0, 0, []⟩⟩ :: [])
      = DoQueryResult.error (-806000)
    ∧ ∀ recs, do_query objListInput ["value"]
        ([⟨0, ⟨1, 1, 5, [⟨2, ['a', nulChar]⟩]⟩⟩]
          ++ ⟨-806000, ⟨0, 0, 0, []⟩⟩ :: [])
        ≠ DoQueryResult.ok recs :=
  do_query_error_all_or_nothing objListInput ["value"]
    [⟨0, ⟨1, 1, 5, [⟨2, ['a', nulChar]⟩]⟩⟩] (-806000) ⟨0, 0, 0, []⟩ []
    (by decide) (by decide) (by decide)

/-- C10: when both of its queries succeed, `search_metadata` returns the
collection-search results followed by the data-object-search results; each
collection row carries the identity label `collection` and each
data-object row carries `collection` and `data_object`, since the
collection query selects one column and the object query two against the
shared two-entry label list. -/
theorem search_metadata_concatenation (a v : String)
    (colScript objScript : List RemoteRsp) (cs os : List Record)
    (hc : do_query (colSearchInput a v) searchLabels colScript
      = DoQueryResult.ok cs)
    (ho : do_query (objSearchInput a v) searchLabels objScript
      = DoQueryResult.ok os)
    (hcol : ∀ r ∈ colScript, r.status = 0 → r.out.attriCnt = 1)
    (hobj : ∀ r ∈ objScript, r.status = 0 → r.out.attriCnt = 2) :
    search_metadata a v colScript objScript = cs ++ os
    ∧ (∀ rec ∈ cs, rec.map Prod.fst = ["collection"])
    ∧ (∀ rec ∈ os, rec.map Prod.fst = ["collection", "data_object"]) := by
  refine ⟨?_, ?_, ?_⟩
  · show extendIfOk (extendIfOk []
        (do_query (colSearchInput a v) searchLabels colScript))
        (do_query (objSearchInput a v) searchLabels objScript) = cs ++ os
    rw [hc, ho]
    simp [extendIfOk]
  · refine doQueryLoop_ok_mem searchLabels _ colScript ?_ 0 0
      (colSearchInput a v) [] cs hc (by simp)
    intro rsp hr hst
    exact chunkOf_keys searchLabels rsp 1 (hcol rsp hr hst) (by decide)
  · refine doQueryLoop_ok_mem searchLabels _ objScript ?_ 0 0
      (objSearchInput a v) [] os ho (by simp)
    intro rsp hr hst
    exact chunkOf_keys searchLabels rsp 2 (hobj rsp hr hst) (by decide)

/-- Witness for C10: one collection row and one data-object row. -/
theorem search_metadata_concatenation_witness :
    search_metadata "color" "red"
        [⟨0, ⟨1, 1, 0, [⟨3, ['c', '1', nulChar]⟩]⟩⟩]
        [⟨0, ⟨1, 2, 0, [⟨3, ['c', 'c', nulChar]⟩, ⟨3, ['d', 'd', nulChar]⟩]⟩⟩]
      = [[("collection", "c1")]]
        ++ [[("collection", "cc"), ("data_object", "dd")]]
    ∧ (∀ rec ∈ ([[("collection", "c1")]] : List Record),
        rec.map Prod.fst = ["collection"])
    ∧ (∀ rec ∈ ([[("collection", "cc"), ("data_object", "dd")]] : List Record),
        rec.map Prod.fst = ["collection", "data_object"]) :=
  search_metadata_concatenation "color" "red"
    [⟨0, ⟨1, 1, 0, [⟨3, ['c', '1', nulChar]⟩]⟩⟩]
    [⟨0, ⟨1, 2, 0, [⟨3, ['c', 'c', nulChar]⟩, ⟨3, ['d', 'd', nulChar]⟩]⟩⟩]
    [[("collection", "c1")]] [[("collection", "cc"), ("data_object", "dd")]]
    (by rfl) (by rfl) (by decide) (by decide)

/-- C9: for every canonical data-object path (absolute, at least one
component, no repeated or trailing slashes), the classifier record pairs
`collection` with the dirname and `data_object` with the basename, the
decomposition satisfies parent ++ separator ++ leaf == path modulo slash
normalization, and the leaf contains no path separator. -/
theorem data_object_path_decomposition (p : List Char)
    (h : IsCanonicalObjPath p) :
    data_object_path_to_json (String.mk p)
      = [("collection", String.mk (posixDirname p)),
         ("data_object", String.mk (posixBasename p))]
    ∧ normalizePath (posixDirname p ++ '/' :: posixBasename p) = p
    ∧ ∀ c ∈ posixBasename p, c ≠ '/' := by
  obtain ⟨pre, leaf, hp2, hlne, hlns, hbase, hdir⟩ := canonical_parts p h
  have hndd : noDoubleSlash p = true := h.2.2.2
  refine ⟨rfl, ?_, ?_⟩
  · rw [hbase, hdir]
    by_cases hpre : pre = []
    · rw [if_pos hpre]
      rw [hp2, hpre, List.nil_append]
      show normalizePath ('/' :: '/' :: leaf) = '/' :: leaf
      rw [normalizePath, if_pos ⟨rfl, rfl⟩]
      apply normalizePath_of_noDoubleSlash
      rw [hp2, hpre] at hndd
      simpa using hndd
    · rw [if_neg hpre, ← hp2]
      exact normalizePath_of_noDoubleSlash p hndd
  · rw [hbase]
    exact hlns

/-- Witness for C9: a concrete canonical data-object path. -/
theorem data_object_path_decomposition_witness :
    data_object_path_to_json (String.mk ("/zone/home/u/f.txt".toList))
      = [("collection", String.mk (posixDirname "/zone/home/u/f.txt".toList)),
         ("data_object", String.mk (posixBasename "/zone/home/u/f.txt".toList))]
    ∧ normalizePath (posixDirname "/zone/home/u/f.txt".toList
        ++ '/' :: posixBasename "/zone/home/u/f.txt".toList)
      = "/zone/home/u/f.txt".toList
    ∧ ∀ c ∈ posixBasename "/zone/home/u/f.txt".toList, c ≠ '/' :=
  data_object_path_decomposition ("/zone/home/u/f.txt".toList) (by decide)

/-- Counterexample for C8: a label/column-count mismatch is not detected.
`make_json_objects` never compares the label count with the page column
count: a 1-column page passed the 2-entry label list of `search_metadata`
(its collection query does exactly this) serializes successfully, silently
using only the first label. -/
theorem make_json_objects_mismatch_not_detected :
    (["collection", "data_object"] : List String).length
        ≠ (GenQueryOut.mk 1 1 0 [⟨2, ['x', nulChar]⟩]).attriCnt
    ∧ make_json_objects ⟨1, 1, 0, [⟨2, ['x', nulChar]⟩]⟩
        ["collection", "data_object"] = some [[("collection", "x")]] := by
  constructor
  · decide
  · rfl

/-- C8 (amended): `make_json_objects` performs no label-count check; each
row becomes one record with exactly `attriCnt` entries, pairing the first
`attriCnt` labels in order, so when the label count equals the page column
count each record has exactly `labels.length` entries in label order. -/
theorem make_json_objects_row_records (out : GenQueryOut)
    (labels : List String) (h1 : labels.length = out.attriCnt)
    (h2 : out.attriCnt ≤ out.sqlResult.length) (h3 : labels.Nodup) :
    ∃ recs, make_json_objects out labels = some recs
      ∧ recs.length = out.rowCnt
      ∧ ∀ rec ∈ recs, rec.map Prod.fst = labels := by
  have hsome := make_json_objects_isSome out labels (by omega) h2
  obtain ⟨recs, hrecs⟩ := Option.isSome_iff_exists.mp hsome
  refine ⟨recs, hrecs, make_json_objects_length out labels recs hrecs, ?_⟩
  have htl : labels.take out.attriCnt = labels := by
    rw [← h1, List.take_length]
  have := make_json_objects_keys out labels recs hrecs (by rw [htl]; exact h3)
  intro rec hmem
  rw [← htl]
  exact this rec hmem

/-- Witness for C8: a 2-row, 3-column AVU page with the `list_metadata`
labels. -/
theorem make_json_objects_row_records_witness :
    ∃ recs,
      make_json_objects
          ⟨2, 3, 0, [⟨2, ['a', nulChar, 'b', nulChar]⟩,
                     ⟨2, ['v', nulChar, 'w', nulChar]⟩,
                     ⟨2, ['u', nulChar, 'y', nulChar]⟩]⟩
          ["attribute", "value", "units"] = some recs
      ∧ recs.length = (GenQueryOut.mk 2 3 0
          [⟨2, ['a', nulChar, 'b', nulChar]⟩,
           ⟨2, ['v', nulChar, 'w', nulChar]⟩,
           ⟨2, ['u', nulChar, 'y', nulChar]⟩]).rowCnt
      ∧ ∀ rec ∈ recs, rec.map Prod.fst = ["attribute", "value", "units"] :=
  make_json_objects_row_records
    ⟨2, 3, 0, [⟨2, ['a', nulChar, 'b', nulChar]⟩,
               ⟨2, ['v', nulChar, 'w', nulChar]⟩,
               ⟨2, ['u', nulChar, 'y', nulChar]⟩]⟩
    ["attribute", "value", "units"] (by decide) (by decide) (by decide)

/-- C7: the predicate compiler produces exactly the clause
operator-space-quote-value-quote, with the raw value embedded verbatim (no
escaping of quote characters in the value), and `add_query_conds` stores
exactly this clause text. -/
theorem compile_expr_clause_verbatim (c : query_cond) :
    compile_expr c = c.op ++ " " ++ squoteS ++ c.value ++ squoteS
    ∧ ∀ q : GenQueryInp,
        (add_query_conds q [c]).sqlCondVal
          = q.sqlCondVal ++ [c.op ++ " " ++ squoteS ++ c.value ++ squoteS] := by
  refine ⟨compile_expr_eq c, fun q => ?_⟩
  simp [add_query_conds, add_query_cond1, compile_expr_eq]

end Baton
